import Mathlib

/-!
Shallow embedding of the `clipivot` / `csvpivot` streaming aggregation engine.

The definitions below are translated from the Rust sources:
* `Dec` models the fragment of `rust_decimal::Decimal` the engine uses
  (integer mantissa with a base-10 scale; the crate's 96-bit mantissa bound,
  its overflow handling and its 28-digit scale cap are outside the fragment
  exercised here, so the mantissa is an unbounded `Int`);
* `ParsingType`, `ParsingHelper`, `ParsingHelper.parse_val`,
  `ParsingHelper.parse_numeric` come from `src/parsing.rs` (the
  `FloatingPoint` (`f64`) and `DateTypes` (`chrono`/`dtparse`) variants are
  not modelled: no claim touches them and floating point is out of scope);
* the accumulators `Count`, `Sum`, `Mean`, `Mode`, `Median` come from
  `src/aggfunc.rs`;
* `Aggregator`, `get_colname`, `add_record`, `update_aggregations`,
  `parse_writing`, `write_results`, `get_idx_vec` come from
  `src/aggregation.rs`.

Rust `HashMap` containers are modelled as association lists, Rust `HashSet`
containers as duplicate-free lists recording first insertion order.  The
iteration order of the standard-library hash containers is unspecified
(`RandomState` is randomized), so every function that iterates a hash set
(`write_results`) is parameterized by an enumeration of the set, constrained
in the theorems to be a permutation of the stored keys.  A Rust `panic!`
(from `unwrap`) is modelled by `Option.none`.
-/

namespace Clipivot

/-- Model of `rust_decimal::Decimal`: a signed integer mantissa `m` together
with a base-10 scale `s`; the represented value is `m / 10 ^ s`. -/
structure Dec where
  m : Int
  s : Nat
deriving DecidableEq, Repr

/-- The rational value represented by a `Dec`, namely `m / 10 ^ s`. -/
def Dec.toRat (d : Dec) : ℚ := mkRat d.m (10 ^ d.s)

/-- Model of `Decimal::checked_add`: rescale both operands to the larger
scale and add the mantissas.  (The crate returns `None` on 96-bit overflow;
the mantissa here is unbounded, so addition is total.) -/
def Dec.add (a b : Dec) : Dec :=
  ⟨a.m * 10 ^ (max a.s b.s - a.s) + b.m * 10 ^ (max a.s b.s - b.s), max a.s b.s⟩

/-- Model of `Decimal`'s `Display`/`to_string`: the mantissa printed with a
decimal point placed `s` digits from the right (retaining the scale, as the
crate does: scale 1 prints `0.3`, not `.3`). -/
def Dec.to_string (d : Dec) : String :=
  if d.s = 0 then toString d.m
  else
    let n := d.m.natAbs
    let fracStr := Nat.repr (n % 10 ^ d.s)
    (if d.m < 0 then "-" else "") ++ Nat.repr (n / 10 ^ d.s) ++ "." ++
      (String.mk (List.replicate (d.s - fracStr.length) '0') ++ fracStr)

/-- Digit-accumulating core of `Decimal::from_str` (radix-10 parse): one
optional decimal point, underscores skipped as digit separators, at least
one digit required, any other character rejected. -/
def Dec.fromStrCore : List Char → Bool → Int → Nat → Bool → Option Dec
  | [], _, acc, scale, seenDigit =>
    if seenDigit then some ⟨acc, scale⟩ else none
  | c :: rest, dot, acc, scale, seenDigit =>
    if c = '.' then
      if dot then none else Dec.fromStrCore rest true acc scale seenDigit
    else if c = '_' then
      Dec.fromStrCore rest dot acc scale seenDigit
    else if c.isDigit then
      Dec.fromStrCore rest dot (acc * 10 + (c.toNat - '0'.toNat : Nat))
        (if dot then scale + 1 else scale) true
    else none

/-- Sign handling around `fromStrCore`: optional leading `+`/`-` followed by
a plain decimal literal. -/
def Dec.fromSigned : List Char → Option Dec
  | '+' :: rest => Dec.fromStrCore rest false 0 0 false
  | '-' :: rest => (Dec.fromStrCore rest false 0 0 false).map fun d => ⟨-d.m, d.s⟩
  | l => Dec.fromStrCore l false 0 0 false

/-- Model of `Decimal::from_str`: optional sign followed by a plain decimal
literal; exponent characters are rejected (the source relies on the separate
`from_scientific` fallback for those). -/
def Dec.from_str (str : String) : Option Dec :=
  Dec.fromSigned str.toList

/-- Integer-exponent parser used by `from_scientific` (Rust `i64::from_str`
on the exponent part: optional sign, then one or more ASCII digits). -/
def parseExp (l : List Char) : Option Int :=
  let digits : List Char → Option Nat := fun ds =>
    if ds.isEmpty then none
    else ds.foldl (fun acc c =>
      if c.isDigit then acc.map fun n => n * 10 + (c.toNat - '0'.toNat) else none)
      (some 0)
  match l with
  | '+' :: rest => (digits rest).map Int.ofNat
  | '-' :: rest => (digits rest).map fun n => -(n : Int)
  | ds => (digits ds).map Int.ofNat

/-- Splits a character list at the first `e`/`E`, returning both sides. -/
def splitAtE : List Char → Option (List Char × List Char)
  | [] => none
  | c :: rest =>
    if c = 'e' ∨ c = 'E' then some ([], rest)
    else (splitAtE rest).map fun p => (c :: p.1, p.2)

/-- Model of `Decimal::from_scientific`: split on the exponent marker, parse
the base with `from_str` and the exponent as a signed integer, then shift
the scale (a positive exponent larger than the scale multiplies the
mantissa out, matching the normalized output the crate produces, e.g.
`1.3E4` prints as `13000`). -/
def Dec.from_scientific (str : String) : Option Dec :=
  match splitAtE str.toList with
  | none => none
  | some (base, expPart) =>
    match Dec.fromSigned base, parseExp expPart with
    | some b, some exp =>
      if 0 ≤ exp then
        if b.s ≤ exp.toNat then some ⟨b.m * 10 ^ (exp.toNat - b.s), 0⟩
        else some ⟨b.m, b.s - exp.toNat⟩
      else some ⟨b.m, b.s + exp.natAbs⟩
    | _, _ => none

/-- The `ParsingType` enum of `src/parsing.rs`, restricted to the two
variants the claims exercise; `FloatingPoint(Option<f64>)` and
`DateTypes(Option<NaiveDateTime>)` are outside the modelled fragment. -/
inductive ParsingType where
  | Text : Option String → ParsingType
  | Numeric : Option Dec → ParsingType
deriving DecidableEq, Repr

/-- The `CsvCliError` enum of `csv_cli_core/src/errors.rs` (the error type
the cited modules use).  The payloads of `CsvError` and `Io` are the foreign
errors' display strings.  `ParsingError` carries `line_num`, `str_to_parse`
and `err` in that order. -/
inductive CsvCliError where
  | CsvError : String → CsvCliError
  | InvalidConfiguration : String → CsvCliError
  | Io : String → CsvCliError
  | ParsingError : Nat → String → String → CsvCliError
deriving DecidableEq, Repr

/-- Alias mirroring `CsvCliResult<T>`. -/
abbrev CsvCliResult (α : Type) := Except CsvCliError α

deriving instance DecidableEq for Except

/-- The `ParsingHelper` struct of `src/parsing.rs`; the `date_helper` field
(`Option<DateFormatter>`) is outside the modelled fragment. -/
structure ParsingHelper where
  values_type : ParsingType
  parse_empty : Bool
deriving DecidableEq, Repr

/-- The `empty_vals` vocabulary built inside `parse_val`. -/
def empty_vals : List String := ["", "na", "n/a", "none", "null", "nan"]

/-- Model of `str::to_ascii_lowercase`: map the ASCII uppercase letters to
their lowercase counterparts, leaving every other character unchanged
(`Char.toLower` lowercases exactly `A`–`Z`). -/
def asciiLower (str : String) : String := String.mk (str.data.map Char.toLower)

/-- Model of `str::trim`: drop leading and trailing whitespace. -/
def strTrim (str : String) : String :=
  String.mk (((str.data.dropWhile Char.isWhitespace).reverse.dropWhile Char.isWhitespace).reverse)

/-- `ParsingHelper::parse_numeric`: `Decimal::from_str` with the
`from_scientific` fallback on the ASCII-lowercased string; both failing
yields a `ParsingError` with the line number and offending string. -/
def ParsingHelper.parse_numeric (new_val : String) (line_num : Nat) :
    CsvCliResult ParsingType :=
  match (Dec.from_str new_val).orElse fun _ => Dec.from_scientific (asciiLower new_val) with
  | some dec => .ok (.Numeric (some dec))
  | none => .error (.ParsingError line_num new_val "Failed to parse as numeric type")

/-- `ParsingHelper::parse_val`: early `Ok(None)` when the ASCII-lowercased
value is in the empty vocabulary and empty-value parsing is disabled,
otherwise dispatch on the configured `values_type`. -/
def ParsingHelper.parse_val (p : ParsingHelper) (new_val : String) (line_num : Nat) :
    CsvCliResult (Option ParsingType) :=
  if empty_vals.contains (asciiLower new_val) && !p.parse_empty then .ok none
  else
    match p.values_type with
    | .Text _ => .ok (some (.Text (some new_val)))
    | .Numeric _ => (ParsingHelper.parse_numeric new_val line_num).map some

/-- The `AggregationMethod` trait of `src/aggfunc.rs` as a record of the
three operations the `Aggregator` uses (`new` also records the first value;
`update` records each later value; `to_output` serializes). -/
structure AggMethod (A : Type) where
  new : ParsingType → A
  update : A → ParsingType → A
  to_output : A → String

/-- The `Count` accumulator state: the number of matching records. -/
structure Count where
  val : Nat
deriving DecidableEq, Repr

/-- The `AggregationMethod` impl for `Count`. -/
def Count.method : AggMethod Count where
  new := fun _ => ⟨1⟩
  update := fun c _ => ⟨c.val + 1⟩
  to_output := fun c => Nat.repr c.val

/-- The `Sum` accumulator state: the running `Decimal` total. -/
structure Sum where
  cur_total : Dec
deriving DecidableEq, Repr

/-- Value extracted by `Sum`/`Mean`/`Median` from a parsed record (`Numeric(Some(num))`
yields the number; every other variant contributes `Decimal::new(0, 0)`). -/
def numOf : ParsingType → Dec
  | .Numeric (some num) => num
  | _ => ⟨0, 0⟩

/-- The `AggregationMethod` impl for `Sum` (`checked_add` then `unwrap`; the
overflow `panic` is unreachable in the unbounded-mantissa model). -/
def Sum.method : AggMethod Sum where
  new := fun pv =>
    match pv with
    | .Numeric (some num) => ⟨num⟩
    | _ => ⟨⟨0, 0⟩⟩
  update := fun s pv => ⟨Dec.add s.cur_total (numOf pv)⟩
  to_output := fun s => s.cur_total.to_string

/-- The `Mean` accumulator state: running total and record count. -/
structure Mean where
  num : Nat
  cur_total : Dec
deriving DecidableEq, Repr

/-- The `AggregationMethod` impl for `Mean` (without the final division,
which lives in `Mean::compute`). -/
def Mean.method : AggMethod Mean where
  new := fun pv =>
    match pv with
    | .Numeric (some num) => ⟨1, num⟩
    | _ => ⟨0, ⟨0, 0⟩⟩
  update := fun s pv => ⟨s.num + 1, Dec.add s.cur_total (numOf pv)⟩
  to_output := fun s => Nat.repr s.num

/-- `Mean::compute`: the Decimal division `cur_total / num`, modelled by the
exact rational quotient (the crate's division is a function of the two
operands, so permutation-invariance of the operands transfers). -/
def Mean.compute (s : Mean) : ℚ := s.cur_total.toRat / (s.num : ℚ)

/-- The `Mode` accumulator state: histogram (`HashMap<String, usize>`
modelled as an association list), maximum repeat count, and current mode. -/
structure Mode where
  values : List (String × Nat)
  max_count : Nat
  max_val : String
deriving DecidableEq, Repr

/-- The text entry `Mode::update` derives from a parsed value
(`Text(Some(val))` yields the string, anything else the empty string). -/
def Mode.entryOf : ParsingType → String
  | .Text (some val) => val
  | _ => ""

/-- `self.values.get(&entry).unwrap_or(&0)` on the histogram. -/
def hmGet : List (String × Nat) → String → Nat
  | [], _ => 0
  | (k', v) :: rest, k => if k' = k then v else hmGet rest k

/-- `*self.values.entry(entry).or_insert(0) += 1` on the histogram. -/
def hmBump : List (String × Nat) → String → List (String × Nat)
  | [], k => [(k, 1)]
  | (k', v) :: rest, k =>
    if k' = k then (k', v + 1) :: rest else (k', v) :: hmBump rest k

/-- The `AggregationMethod` impl for `Mode`: the `(max_count, max_val)` pair
is replaced only when the candidate's new count strictly exceeds
`max_count`. -/
def Mode.method : AggMethod Mode where
  new := fun pv =>
    match pv with
    | .Text (some val) => ⟨[(val, 1)], 1, val⟩
    | _ => ⟨[], 0, ""⟩
  update := fun s pv =>
    let entry := Mode.entryOf pv
    let new_count := hmGet s.values entry + 1
    if s.max_count < new_count then ⟨hmBump s.values entry, new_count, entry⟩
    else ⟨hmBump s.values entry, s.max_count, s.max_val⟩
  to_output := fun s => s.max_val

/-- Model of `Decimal`'s `Ord`: numeric comparison across scales, by
cross-multiplying the mantissas. -/
def Dec.dlt (a b : Dec) : Bool := a.m * 10 ^ b.s < b.m * 10 ^ a.s

/-- Model of `Decimal`'s `Eq`: numeric equality across scales. -/
def Dec.deq (a b : Dec) : Bool := a.m * 10 ^ b.s = b.m * 10 ^ a.s

/-- Exact halving of a `Decimal`, the result of the crate's exact division
by `Decimal::new(2, 0)` in `Median::compute`: an even mantissa is halved in
place, an odd one is rescaled one digit finer. -/
def Dec.half (d : Dec) : Dec :=
  if d.m % 2 = 0 then ⟨d.m / 2, d.s⟩ else ⟨5 * d.m, d.s + 1⟩

/-- The `Median` accumulator state: the `BTreeMap<Decimal, usize>` modelled
as an association list kept ascending under the numeric key order (the
crate's `Ord`/`Eq` on `Decimal` compare numerically, so numerically equal
keys coalesce, the first-inserted representation being kept), plus the
total record count. -/
structure Median where
  values : List (Dec × Nat)
  num : Nat
deriving DecidableEq, Repr

/-- `self.values.entry(key).and_modify(|v| v += 1).or_insert(1)` on the
ordered map: sorted insert incrementing an existing key's count. -/
def btBump : List (Dec × Nat) → Dec → List (Dec × Nat)
  | [], q => [(q, 1)]
  | (k, c) :: rest, q =>
    if Dec.dlt q k then (q, 1) :: (k, c) :: rest
    else if Dec.deq q k then (k, c + 1) :: rest
    else (k, c) :: btBump rest q

/-- The `AggregationMethod` impl for `Median` (without the final walk, which
lives in `Median::compute`). -/
def Median.method : AggMethod Median where
  new := fun pv =>
    match pv with
    | .Numeric (some num) => ⟨[(num, 1)], 1⟩
    | _ => ⟨[], 0⟩
  update := fun s pv => ⟨btBump s.values (numOf pv), s.num + 1⟩
  to_output := fun _ => ""

/-- The while loop of `Median::compute`: accumulate counts while
`(cur_count as f64) < (num as f64 / 2.0)` — for integers below 2^53 the
`f64` comparison is exact and equivalent to `2 * cur_count < num`.  Returns
`(cur_count, cur_val, remaining iterator)`; `none` models the `unwrap`
panic of `iter.next()` on an exhausted iterator. -/
def medianWalk (num : Nat) : List (Dec × Nat) → Nat → Dec → Option (Nat × Dec × List (Dec × Nat))
  | [], cur_count, cur_val =>
    if 2 * cur_count < num then none else some (cur_count, cur_val, [])
  | (result, count) :: rest, cur_count, cur_val =>
    if 2 * cur_count < num then medianWalk num rest (cur_count + count) result
    else some (cur_count, cur_val, (result, count) :: rest)

/-- `Median::compute`: walk to the midpoint starting from
`Decimal::new(0, 0)`; when the count is even and the cumulative count
landed exactly on `num / 2` (the source's `abs(cur_count - num/2) <
EPSILON` check, exact on integers), average `cur_val` with the next element
in order via `checked_add` and the exact division by `Decimal::new(2, 0)`.
`none` models the `unwrap` panics, unreachable for states built by
`new`/`update`. -/
def Median.compute (s : Median) : Option Dec :=
  match medianWalk s.num s.values 0 ⟨0, 0⟩ with
  | none => none
  | some (cur_count, cur_val, rest) =>
    if s.num % 2 = 0 ∧ 2 * cur_count = s.num then
      match rest with
      | [] => none
      | (k, _) :: _ => some (Dec.half (Dec.add cur_val k))
    else some cur_val

/-- The reserved composite-key separator of `src/aggregation.rs`. -/
def FIELD_SEPARATOR : String := "_<sep>_"

/-- The `Aggregator` struct of `src/aggregation.rs`.  `aggregations`
(`HashMap<(String, String), T>`) is an association list; `indexes` and
`columns` (`HashSet<String>`) are duplicate-free lists recording first
insertion order (the hash sets' own iteration order is unspecified and is a
separate parameter of `write_results`). -/
structure Aggregator (A : Type) where
  aggregations : List ((String × String) × A)
  indexes : List String
  columns : List String
  parser : ParsingHelper
  index_cols : List Nat
  column_cols : List Nat
  values_col : Nat
deriving DecidableEq, Repr

/-- The field-collecting loop of `get_colname`: push `record.get(*idx)` for
every index, the `unwrap` panic on a missing field modelled as `none`. -/
def getFields (record : List String) : List Nat → Option (List String)
  | [] => some []
  | idx :: rest => do
    let idx_column ← record.get? idx
    let colnames ← getFields record rest
    some (idx_column :: colnames)

/-- `Aggregator::get_colname`: `"total"` for an empty index list, otherwise
the record's fields at the indexes joined with `FIELD_SEPARATOR`. -/
def get_colname (columns : List Nat) (record : List String) : Option String :=
  if columns.isEmpty then some "total"
  else (getFields record columns).map (String.intercalate FIELD_SEPARATOR)

/-- The `if !(set.contains(&k)) { set.insert(k); }` pattern used on the
`indexes` and `columns` hash sets. -/
def hsInsert (s : List String) (k : String) : List String :=
  if s.contains k then s else s ++ [k]

/-- `Aggregator::update_aggregations`:
`entry((index, column)).and_modify(update).or_insert_with(new)`. -/
def update_aggregations (m : AggMethod A) (pv : ParsingType) :
    List ((String × String) × A) → String × String → List ((String × String) × A)
  | [], key => [(key, m.new pv)]
  | (k, a) :: rest, key =>
    if k = key then (k, m.update a pv) :: rest
    else (k, a) :: update_aggregations m pv rest key

/-- `Aggregator::add_record`: build both composite keys, read the raw value
field (`unwrap` panic modelled as `none`), insert both keys into the key
sets, then parse the value and update the cell map unless the parser
returned `Ok(None)`.  On a parse error the whole run aborts with the typed
error. -/
def add_record (m : AggMethod A) (agg : Aggregator A) (record : List String)
    (line_num : Nat) : Option (CsvCliResult (Aggregator A)) := do
  let indexnames ← get_colname agg.index_cols record
  let columnnames ← get_colname agg.column_cols record
  let str_val ← record.get? agg.values_col
  let columns' := hsInsert agg.columns columnnames
  let indexes' := hsInsert agg.indexes indexnames
  match agg.parser.parse_val str_val line_num with
  | .error e => some (.error e)
  | .ok none => some (.ok { agg with columns := columns', indexes := indexes' })
  | .ok (some pv) =>
    let aggs' := update_aggregations m pv agg.aggregations (indexnames, columnnames)
    some (.ok { agg with columns := columns', indexes := indexes', aggregations := aggs' })

/-- The record loop shared by `aggregate_from_file` and
`aggregate_from_stdin`: `add_record` on each record with its 0-based line
number, aborting on the first error (reader-level CSV errors are outside
the model: the input is already a list of field-string lists). -/
def aggregateFrom (m : AggMethod A) (agg : Aggregator A) (line_num : Nat) :
    List (List String) → Option (CsvCliResult (Aggregator A))
  | [] => some (.ok agg)
  | record :: rest => do
    match ← add_record m agg record line_num with
    | .error e => some (.error e)
    | .ok agg' => aggregateFrom m agg' (line_num + 1) rest

/-- `Aggregator::parse_writing`: the serialized accumulator for the cell, or
the empty string when the cell has no accumulator. -/
def parse_writing (m : AggMethod A) (agg : Aggregator A) (row col : String) : String :=
  match agg.aggregations.lookup (row, col) with
  | some a => m.to_output a
  | none => ""

/-- `Aggregator::write_results` as the list of records handed to the CSV
writer: a header of the empty string followed by the column keys, then one
row per row key.  `rowEnum` and `colEnum` are the iteration orders of the
two hash sets — unspecified permutations of the stored keys, constrained by
permutation hypotheses in the theorems; the same column enumeration is used
for the header and for every row, as in the source (the set is not mutated
between the two loops).  The only error paths of the source function are
the CSV writer's I/O errors, which are outside the model; there is no
configuration-error path. -/
def write_results (m : AggMethod A) (agg : Aggregator A)
    (rowEnum colEnum : List String) : CsvCliResult (List (List String)) :=
  .ok (("" :: colEnum) ::
    rowEnum.map fun row => row :: colEnum.map fun col => parse_writing m agg row col)

/-- The deduplication loop at the end of `CliConfig::get_idx_vec`, verbatim:
`if !parsed_cols.contains(&col) { output_cols.push(col); } else
{ parsed_cols.insert(col); }` — the insertion into the seen set happens only
in the branch taken after the index has already been judged seen. -/
def dedupLoop : List Nat → List Nat → List Nat → List Nat
  | [], _, output_cols => output_cols
  | col :: rest, parsed_cols, output_cols =>
    if ¬ parsed_cols.contains col then dedupLoop rest parsed_cols (output_cols ++ [col])
    else dedupLoop rest (parsed_cols ++ [col]) output_cols

/-- `CliConfig::get_idx_vec`: resolve every expected column through
`get_header_idx` (abstracted here as the `get_header_idx` parameter, exactly
as the source calls `self.get_header_idx(&col, headers)?`), then run the
seen-set loop over the resolved indexes. -/
def get_idx_vec (get_header_idx : String → CsvCliResult Nat)
    (expected_cols : List String) : CsvCliResult (List Nat) :=
  match expected_cols.mapM get_header_idx with
  | .error e => .error e
  | .ok all_cols => .ok (dedupLoop all_cols [] [])

/-- A parsed `Numeric` value as handed to an accumulator. -/
def ptOfDec (d : Dec) : ParsingType := .Numeric (some d)

/-- A parsed `Text` value as handed to an accumulator. -/
def ptOfStr (v : String) : ParsingType := .Text (some v)

/-- The accumulator life cycle the `Aggregator` guarantees: `new` on the
first contributing value of a cell, `update` on every later one. -/
def runAcc (m : AggMethod A) (first : ParsingType) (rest : List ParsingType) : A :=
  rest.foldl m.update (m.new first)

/-- A full `Mode` run over a nonempty sequence of text values. -/
def runMode (v : String) (vs : List String) : Mode :=
  runAcc Mode.method (ptOfStr v) (vs.map ptOfStr)

/-- A full `Count` run over a sequence of numeric values (`none` for the
empty sequence: the `Aggregator` never creates an accumulator without a
first contributing value). -/
def runCount : List Dec → Option Count
  | [] => none
  | x :: xs => some (runAcc Count.method (ptOfDec x) (xs.map ptOfDec))

/-- A full `Sum` run over a sequence of numeric values. -/
def runSum : List Dec → Option Sum
  | [] => none
  | x :: xs => some (runAcc Sum.method (ptOfDec x) (xs.map ptOfDec))

/-- A full `Mean` run over a sequence of numeric values. -/
def runMean : List Dec → Option Mean
  | [] => none
  | x :: xs => some (runAcc Mean.method (ptOfDec x) (xs.map ptOfDec))

/-- An `Aggregator<Count>` configured with empty-value skipping enabled
(`parse_empty = false`, the `-e` flag), empty row/column index lists (both
composite keys are `"total"`) and value column 0. -/
def skipNullAgg : Aggregator Count :=
  ⟨[], [], [], ⟨.Text none, false⟩, [], [], 0⟩

/-- A fresh `Aggregator<Count>` with the default parser (`Text`, empty
values parsed), rows on nothing, columns on field 0, values on field 1. -/
def colAgg0 : Aggregator Count :=
  ⟨[], [], [], ⟨.Text none, true⟩, [], [0], 1⟩

/-- The state of `colAgg0` after ingesting the records `["a","1"]` and
`["b","2"]`: column keys first seen in the order `a`, `b`. -/
def colAggS : Aggregator Count :=
  ⟨[(("total", "a"), ⟨1⟩), (("total", "b"), ⟨1⟩)], ["total"], ["a", "b"],
    ⟨.Text none, true⟩, [], [0], 1⟩

/-- A fresh `Aggregator<Count>` as produced for a run that contributes zero
records (e.g. a header-only CSV file): no column key is ever observed. -/
def emptyRunAgg : Aggregator Count :=
  ⟨[], [], [], ⟨.Text none, true⟩, [], [], 0⟩

/-- A numeric-domain `ParsingHelper` with empty-value skipping enabled. -/
def numSkipHelper : ParsingHelper := ⟨.Numeric none, false⟩

/-- An `Aggregator<Count>` whose single row-index column is out of range for
one-field records. -/
def oobAgg : Aggregator Count :=
  ⟨[], [], [], ⟨.Text none, true⟩, [5], [], 0⟩

/-- Specification predicate for the Mode tie-break: `mv` is the value at
the first position of `l` whose running occurrence count reaches `mc` (at
every strictly earlier position, the running count of the value arriving
there is still below `mc`). -/
def FirstReach (l : List String) (mv : String) (mc : Nat) : Prop :=
  ∃ i, ∃ hlt : i < l.length,
    l.get ⟨i, hlt⟩ = mv ∧ (l.take (i + 1)).count mv = mc ∧
    ∀ j (hj : j < l.length), j < i → (l.take (j + 1)).count (l.get ⟨j, hj⟩) < mc

/-- The seen set of `dedupLoop` starts empty and, because the insertion sits
in the already-seen branch, never gains an element; every index is
appended. -/
theorem dedupLoop_nil_seen (l : List Nat) : ∀ out, dedupLoop l [] out = out ++ l := by
  induction l with
  | nil => intro out; simp [dedupLoop]
  | cons c rest ih => intro out; simp [dedupLoop, ih]

/-- Claim C10: in `get_idx_vec` the seen set is inserted into only in the
branch taken after an index has already been judged seen, and an index is
appended exactly when absent from that set; consequently the returned index
list equals the full list of resolved indices in input order, with repeated
index selections preserved — no deduplication ever occurs (witnessed
concretely by a resolver under which `["aa", "aa", "b"]` resolves to the
duplicate-preserving `[2, 2, 1]`). -/
theorem c10_get_idx_vec_preserves_duplicates :
    (∀ (get_header_idx : String → CsvCliResult Nat) (expected_cols : List String),
      get_idx_vec get_header_idx expected_cols = expected_cols.mapM get_header_idx) ∧
    get_idx_vec (fun s => .ok s.length) ["aa", "aa", "b"] = .ok [2, 2, 1] := by
  constructor
  · intro f l
    unfold get_idx_vec
    cases h : l.mapM f <;> simp [h, dedupLoop_nil_seen]
  · decide

/-- Claim C5: the odd-count set `[1,9,7,8,5,2,5,5,3]` (first element as
seed) yields median `5` — the walk stops past `n / 2` inside an element —
and the even-count set `[0,1,2,3]` yields `1.5` (value `3/2`): the walk
lands exactly on `n / 2` and averages the element with the next one in
order. -/
theorem c5_median_walk_examples :
    (runAcc Median.method (ptOfDec ⟨1, 0⟩)
      ([9, 7, 8, 5, 2, 5, 5, 3].map fun n => ptOfDec ⟨n, 0⟩)).compute = some ⟨5, 0⟩ ∧
    ((runAcc Median.method (ptOfDec ⟨1, 0⟩)
      ([9, 7, 8, 5, 2, 5, 5, 3].map fun n => ptOfDec ⟨n, 0⟩)).compute).map Dec.to_string =
      some "5" ∧
    (runAcc Median.method (ptOfDec ⟨0, 0⟩)
      ([1, 2, 3].map fun n => ptOfDec ⟨n, 0⟩)).compute = some ⟨15, 1⟩ ∧
    ((runAcc Median.method (ptOfDec ⟨0, 0⟩)
      ([1, 2, 3].map fun n => ptOfDec ⟨n, 0⟩)).compute).map Dec.to_string = some "1.5" ∧
    (Dec.toRat ⟨15, 1⟩ = mkRat 3 2) := by
  refine ⟨by decide, by decide, by decide, by decide, by decide⟩

/-- Claim C3 (code-bug evaluation): at the failing input — a run with zero
contributing records, so no column key was ever observed — `write_results`
does not return a configuration error: it succeeds and emits exactly the
bare header grid `[[""]]`. -/
theorem c3_zero_columns_emits_bare_header :
    aggregateFrom Count.method emptyRunAgg 0 [] = some (.ok emptyRunAgg) ∧
    write_results Count.method emptyRunAgg [] [] = .ok [[""]] ∧
    (write_results Count.method emptyRunAgg [] []).isOk = true := by
  refine ⟨rfl, by decide, by decide⟩

/-- Claim C1 counterexample: with empty-value skipping enabled, feeding the
record `["na"]` to a fresh aggregator returns `Ok` but does **not** leave
the state unchanged — both key sets gain the composite key `"total"`
(`add_record` inserts into the key sets before the empty-value check), even
though the cell map stays empty. -/
theorem c1_skip_null_touches_key_sets_counterexample :
    add_record Count.method skipNullAgg ["na"] 0 =
      some (.ok ⟨[], ["total"], ["total"], ⟨.Text none, false⟩, [], [], 0⟩) ∧
    decide (add_record Count.method skipNullAgg ["na"] 0 = some (.ok skipNullAgg)) = false ∧
    skipNullAgg.columns = [] ∧ skipNullAgg.indexes = [] := by
  refine ⟨by decide, by decide, rfl, rfl⟩

/-- Claim C1 amended: when empty-value skipping is enabled and the raw value
field, ASCII-lowercased, is in the empty-value vocabulary, `add_record`
returns `Ok(())` and leaves the cell map unchanged — but it does insert the
row and the column composite key into their key sets (the insertions happen
before the empty-value check), so the skipped record does contribute to the
key sets. -/
theorem c1_skip_null_leaves_cells_unchanged {A : Type} (m : AggMethod A)
    (agg : Aggregator A) (record : List String) (line_num : Nat)
    (iname cname v : String)
    (hskip : agg.parser.parse_empty = false)
    (hi : get_colname agg.index_cols record = some iname)
    (hc : get_colname agg.column_cols record = some cname)
    (hv : record.get? agg.values_col = some v)
    (hempty : empty_vals.contains (asciiLower v) = true) :
    add_record m agg record line_num =
      some (.ok { agg with indexes := hsInsert agg.indexes iname, columns := hsInsert agg.columns cname }) := by
  have hm : asciiLower v ∈ empty_vals := by simpa using hempty
  rw [List.get?_eq_getElem?] at hv
  simp [add_record, hi, hc, hv, ParsingHelper.parse_val, hm, hskip]

/-- Witness for the amended claim C1, at the concrete record `["NA"]`. -/
theorem c1_skip_null_leaves_cells_unchanged_witness :
    add_record Count.method skipNullAgg ["NA"] 3 =
      some (.ok { skipNullAgg with indexes := hsInsert skipNullAgg.indexes "total", columns := hsInsert skipNullAgg.columns "total" }) :=
  c1_skip_null_leaves_cells_unchanged Count.method skipNullAgg ["NA"] 3
    "total" "total" "NA" rfl rfl rfl rfl (by decide)

/-- Claim C6 counterexample: `add_record` does panic on records that lack
the configured value column or a configured key column — the
`record.get(..).unwrap()` calls abort (modelled as `none`) instead of
returning a typed error. -/
theorem c6_add_record_panics_counterexample :
    add_record Count.method emptyRunAgg [] 0 = none ∧
    add_record Count.method oobAgg ["x"] 0 = none := by
  refine ⟨rfl, rfl⟩

/-- The field-collecting loop succeeds when every index is in bounds. -/
theorem getFields_some (record : List String) :
    ∀ cols : List Nat, (∀ i ∈ cols, i < record.length) →
      ∃ l, getFields record cols = some l := by
  intro cols
  induction cols with
  | nil => intro _; exact ⟨[], rfl⟩
  | cons c rest ih =>
    intro h
    have hc : c < record.length := h c (List.mem_cons_self c rest)
    obtain ⟨l, hl⟩ := ih fun i hi => h i (List.mem_cons_of_mem _ hi)
    refine ⟨record.get ⟨c, hc⟩ :: l, ?_⟩
    have hgc : record.get? c = some (record.get ⟨c, hc⟩) := List.get?_eq_get hc
    rw [List.get?_eq_getElem?] at hgc
    simp [getFields, hgc, hl]

/-- `get_colname` returns a composite key whenever the configured indexes
are in bounds for the record. -/
theorem exists_get_colname (cols : List Nat) (record : List String)
    (h : ∀ i ∈ cols, i < record.length) : ∃ s, get_colname cols record = some s := by
  unfold get_colname
  rcases cols with _ | ⟨c, rest⟩
  · exact ⟨"total", by simp⟩
  · obtain ⟨l, hl⟩ := getFields_some record (c :: rest) h
    exact ⟨String.intercalate FIELD_SEPARATOR l, by simp [hl]⟩

/-- Claim C6 amended: `add_record` never panics provided the record has a
field at the value column and at every configured row/column index; under
those conditions it always returns a `Result` (a typed error or success). -/
theorem c6_add_record_no_panic_in_bounds {A : Type} (m : AggMethod A)
    (agg : Aggregator A) (record : List String) (line_num : Nat)
    (hidx : ∀ i ∈ agg.index_cols, i < record.length)
    (hcol : ∀ i ∈ agg.column_cols, i < record.length)
    (hval : agg.values_col < record.length) :
    ∃ r : CsvCliResult (Aggregator A), add_record m agg record line_num = some r := by
  obtain ⟨iname, hi⟩ := exists_get_colname agg.index_cols record hidx
  obtain ⟨cname, hc⟩ := exists_get_colname agg.column_cols record hcol
  obtain ⟨v, hv⟩ : ∃ v, record.get? agg.values_col = some v :=
    ⟨record.get ⟨agg.values_col, hval⟩, List.get?_eq_get hval⟩
  rw [List.get?_eq_getElem?] at hv
  cases hpv : agg.parser.parse_val v line_num with
  | error e => exact ⟨.error e, by simp [add_record, hi, hc, hv, hpv]⟩
  | ok o =>
    cases o with
    | none =>
      exact ⟨.ok { agg with indexes := hsInsert agg.indexes iname, columns := hsInsert agg.columns cname },
        by simp [add_record, hi, hc, hv, hpv]⟩
    | some pv =>
      exact ⟨.ok { agg with aggregations := update_aggregations m pv agg.aggregations (iname, cname), indexes := hsInsert agg.indexes iname, columns := hsInsert agg.columns cname },
        by simp [add_record, hi, hc, hv, hpv]⟩

/-- Witness for the amended claim C6, at the concrete record `["x"]`. -/
theorem c6_add_record_no_panic_in_bounds_witness :
    ∃ r : CsvCliResult (Aggregator Count), add_record Count.method emptyRunAgg ["x"] 0 = some r :=
  c6_add_record_no_panic_in_bounds Count.method emptyRunAgg ["x"] 0
    (by decide) (by decide) (by decide)

/-- Claim C7 counterexample: `parse_val` performs no trimming — the raw
value `" NA"` trims (case-insensitively) into the empty-value vocabulary,
and empty-skipping is enabled, yet `parse_val` does not return `Ok(None)`:
it falls through to the numeric parser and errors. -/
theorem c7_parse_val_no_trimming_counterexample :
    empty_vals.contains (asciiLower (strTrim " NA")) = true ∧
    numSkipHelper.parse_val " NA" 7 =
      .error (.ParsingError 7 " NA" "Failed to parse as numeric type") ∧
    decide (numSkipHelper.parse_val " NA" 7 = .ok none) = false := by
  refine ⟨by decide, by decide, by decide⟩

/-- Claim C7 amended: with the Numeric domain configured, `parse_val`
returns `Ok(None)` exactly when empty-skipping is enabled and the raw value
ASCII-lowercased — with no trimming — is in the empty-value vocabulary;
otherwise it returns `Ok(Some(decimal))` exactly when the standard decimal
parse or, failing that, the scientific-notation fallback succeeds (e.g.
`1.3E4`, which parses to `13000`), and a `ParsingError` carrying the line
number and the offending string exactly when both parses fail. -/
theorem c7_parse_val_numeric_characterization :
    (∀ (pe : Bool) (raw : String) (ln : Nat),
      ((⟨.Numeric none, pe⟩ : ParsingHelper).parse_val raw ln = .ok none ↔
        (pe = false ∧ empty_vals.contains (asciiLower raw) = true)) ∧
      (∀ d : Dec,
        (⟨.Numeric none, pe⟩ : ParsingHelper).parse_val raw ln = .ok (some (.Numeric (some d))) ↔
          (¬ (pe = false ∧ empty_vals.contains (asciiLower raw) = true) ∧
            ((Dec.from_str raw).orElse fun _ => Dec.from_scientific (asciiLower raw)) = some d)) ∧
      ((⟨.Numeric none, pe⟩ : ParsingHelper).parse_val raw ln =
          .error (.ParsingError ln raw "Failed to parse as numeric type") ↔
        (¬ (pe = false ∧ empty_vals.contains (asciiLower raw) = true) ∧
          ((Dec.from_str raw).orElse fun _ => Dec.from_scientific (asciiLower raw)) = none))) ∧
    numSkipHelper.parse_val "1.3E4" 5 = .ok (some (.Numeric (some ⟨13000, 0⟩))) := by
  constructor
  · intro pe raw ln
    have hpv : (⟨.Numeric none, pe⟩ : ParsingHelper).parse_val raw ln =
        (if empty_vals.contains (asciiLower raw) && !pe then .ok none
         else
           match (Dec.from_str raw).orElse fun _ => Dec.from_scientific (asciiLower raw) with
           | some d => .ok (some (.Numeric (some d)))
           | none => .error (.ParsingError ln raw "Failed to parse as numeric type")) := by
      unfold ParsingHelper.parse_val ParsingHelper.parse_numeric
      cases (Dec.from_str raw).orElse fun _ => Dec.from_scientific (asciiLower raw) <;>
        simp [Except.map]
    rw [hpv]
    cases hb : empty_vals.contains (asciiLower raw) && !pe with
    | true =>
      have hcond : pe = false ∧ empty_vals.contains (asciiLower raw) = true := by
        rcases Bool.and_eq_true _ _ |>.mp hb with ⟨h1, h2⟩
        exact ⟨Bool.not_eq_true' .. |>.mp h2, h1⟩
      obtain ⟨hpe, hmemb⟩ := hcond
      subst hpe
      have hm : asciiLower raw ∈ empty_vals := by simpa using hmemb
      simp [hm]
    | false =>
      have hncond : ¬ (pe = false ∧ empty_vals.contains (asciiLower raw) = true) := by
        rintro ⟨h1, h2⟩
        rw [h1, h2] at hb
        simp at hb
      have himp : pe = false → asciiLower raw ∉ empty_vals :=
        fun h1 h2 => hncond ⟨h1, by simpa using h2⟩
      cases horelse : (Dec.from_str raw).orElse fun _ => Dec.from_scientific (asciiLower raw) with
      | some d₀ =>
        simp [hncond]
        exact himp
      | none =>
        simp [hncond]
        exact himp
  · decide

/-- Claim C2 counterexample: the aggregator built from the records
`["a","1"]`, `["b","2"]` stores the column keys in first-seen order
`["a","b"]`, yet `write_results` has no ordering-policy machinery at all —
it follows whatever enumeration the hash set happens to iterate in, and the
enumeration `["b","a"]` (a legitimate iteration order of the stored set)
produces a header that is not in first-seen insertion order. -/
theorem c2_no_ordering_policy_counterexample :
    aggregateFrom Count.method colAgg0 0 [["a", "1"], ["b", "2"]] = some (.ok colAggS) ∧
    List.Perm ["b", "a"] colAggS.columns ∧
    write_results Count.method colAggS ["total"] ["b", "a"] =
      .ok [["", "b", "a"], ["total", "1", "1"]] ∧
    decide ((["", "b", "a"] : List String) = "" :: colAggS.columns) = false := by
  refine ⟨by decide, List.Perm.swap "a" "b" [], by decide, by decide⟩

/-- Claim C2 amended: `write_results` emits a header of the empty string
followed by the column keys and one data row per row key, each axis in the
unspecified iteration order of its backing hash set (some permutation of
the stored key set, the same column enumeration reused for every data
row), with empty cells where no accumulator exists; no ordering policy
(IndexOrder / Ascending / Descending) exists in this `write_results`, and
first-seen order is not guaranteed. -/
theorem c2_write_results_unordered_enumeration {A : Type} (m : AggMethod A)
    (agg : Aggregator A) (rowEnum colEnum : List String)
    (hrow : List.Perm rowEnum agg.indexes) (hcol : List.Perm colEnum agg.columns) :
    ∃ grid, write_results m agg rowEnum colEnum = .ok grid ∧
      grid.head? = some ("" :: colEnum) ∧
      List.Perm ("" :: colEnum).tail agg.columns ∧
      List.Perm (grid.tail.map fun r => r.headD "") agg.indexes ∧
      ∀ row ∈ rowEnum,
        (row :: colEnum.map fun col => parse_writing m agg row col) ∈ grid.tail := by
  refine ⟨_, rfl, rfl, hcol, ?_, ?_⟩
  · simpa [Function.comp_def] using hrow
  · intro row hr
    exact List.mem_map_of_mem _ hr

/-- Witness for the amended claim C2, at the two-record aggregator state
and the enumerations `["total"]`, `["a","b"]`. -/
theorem c2_write_results_unordered_enumeration_witness :
    ∃ grid, write_results Count.method colAggS ["total"] ["a", "b"] = .ok grid ∧
      grid.head? = some ("" :: ["a", "b"]) ∧
      List.Perm ("" :: ["a", "b"]).tail colAggS.columns ∧
      List.Perm (grid.tail.map fun r => r.headD "") colAggS.indexes ∧
      ∀ row ∈ (["total"] : List String),
        (row :: (["a", "b"] : List String).map fun col =>
          parse_writing Count.method colAggS row col) ∈ grid.tail :=
  c2_write_results_unordered_enumeration Count.method colAggS ["total"] ["a", "b"]
    (by decide) (by decide)

/-- `Decimal::new(0, 0)` is a left identity for decimal addition. -/
theorem Dec.zero_add_dec (d : Dec) : Dec.add ⟨0, 0⟩ d = d := by
  cases d with
  | mk m s => simp [Dec.add, Nat.zero_max]

/-- `toRat` written as a field division. -/
theorem Dec.toRat_eq (d : Dec) : d.toRat = (d.m : ℚ) / (10 : ℚ) ^ d.s := by
  rw [Dec.toRat, Rat.mkRat_eq_div]
  push_cast
  rfl

/-- Decimal addition represents rational addition. -/
theorem Dec.toRat_add (a b : Dec) : (Dec.add a b).toRat = a.toRat + b.toRat := by
  cases a with
  | mk am as =>
  cases b with
  | mk bm bs =>
  have hpow : ∀ n : ℕ, (10 : ℚ) ^ n ≠ 0 := fun n => pow_ne_zero n (by norm_num)
  simp only [Dec.add, Dec.toRat_eq]
  have h1 : (10 : ℚ) ^ max as bs = 10 ^ (max as bs - as) * 10 ^ as := by
    rw [← pow_add]
    congr 1
    omega
  have h2 : (10 : ℚ) ^ max as bs = 10 ^ (max as bs - bs) * 10 ^ bs := by
    rw [← pow_add]
    congr 1
    omega
  push_cast
  rw [add_div]
  congr 1
  · rw [h1, mul_comm (am : ℚ) ((10 : ℚ) ^ (max as bs - as)),
      mul_div_mul_left _ _ (hpow (max as bs - as))]
  · rw [h2, mul_comm (bm : ℚ) ((10 : ℚ) ^ (max as bs - bs)),
      mul_div_mul_left _ _ (hpow (max as bs - bs))]

/-- Two decimals with the same scale and the same rational value coincide. -/
theorem Dec.eq_of_scale_toRat {a b : Dec} (hs : a.s = b.s) (hv : a.toRat = b.toRat) : a = b := by
  cases a with
  | mk am as =>
  cases b with
  | mk bm bs =>
  simp only at hs
  subst hs
  simp only [Dec.toRat_eq] at hv
  have hpow : (10 : ℚ) ^ as ≠ 0 := pow_ne_zero as (by norm_num)
  rw [div_eq_div_iff hpow hpow] at hv
  have : am = bm := by exact_mod_cast mul_right_cancel₀ hpow hv
  rw [this]

/-- Decimal addition is commutative (as stored representations, scale
included). -/
theorem Dec.add_comm_dec (a b : Dec) : Dec.add a b = Dec.add b a := by
  apply Dec.eq_of_scale_toRat
  · simp [Dec.add, Nat.max_comm]
  · rw [Dec.toRat_add, Dec.toRat_add, add_comm]

/-- Decimal addition is associative (as stored representations). -/
theorem Dec.add_assoc_dec (a b c : Dec) : Dec.add (Dec.add a b) c = Dec.add a (Dec.add b c) := by
  apply Dec.eq_of_scale_toRat
  · simp [Dec.add, Nat.max_assoc]
  · rw [Dec.toRat_add, Dec.toRat_add, Dec.toRat_add, Dec.toRat_add, add_assoc]

/-- A fold by a right-commutative operation is invariant under permutation
of the list. -/
theorem foldl_perm_eq {α β : Type} (f : β → α → β)
    (hf : ∀ b a₁ a₂, f (f b a₁) a₂ = f (f b a₂) a₁) {l₁ l₂ : List α}
    (h : List.Perm l₁ l₂) : ∀ b, l₁.foldl f b = l₂.foldl f b := by
  induction h with
  | nil => intro b; rfl
  | cons x _ ih => intro b; simp only [List.foldl_cons]; exact ih _
  | swap x y l => intro b; simp only [List.foldl_cons]; rw [hf]
  | trans _ _ ih₁ ih₂ => intro b; rw [ih₁ b, ih₂ b]

/-- A `Sum` fold accumulates exactly the decimal fold of the values. -/
theorem sum_foldl_aux :
    ∀ (l : List Dec) (s : Sum),
      (l.map ptOfDec).foldl Sum.method.update s = ⟨l.foldl Dec.add s.cur_total⟩ := by
  intro l
  induction l with
  | nil => intro s; rfl
  | cons x rest ih =>
    intro s
    rw [List.map_cons, List.foldl_cons, ih]
    rfl

/-- A `Mean` fold accumulates the same decimal fold plus the record count. -/
theorem mean_foldl_aux :
    ∀ (l : List Dec) (s : Mean),
      (l.map ptOfDec).foldl Mean.method.update s = ⟨s.num + l.length, l.foldl Dec.add s.cur_total⟩ := by
  intro l
  induction l with
  | nil => intro s; rfl
  | cons x rest ih =>
    intro s
    rw [List.map_cons, List.foldl_cons, ih]
    simp only [Mean.method, numOf, ptOfDec, List.length_cons, Mean.mk.injEq]
    exact ⟨by omega, rfl⟩

/-- A `Count` fold just adds the record count. -/
theorem count_foldl_aux :
    ∀ (l : List Dec) (s : Count),
      (l.map ptOfDec).foldl Count.method.update s = ⟨s.val + l.length⟩ := by
  intro l
  induction l with
  | nil => intro s; rfl
  | cons x rest ih =>
    intro s
    rw [List.map_cons, List.foldl_cons, ih]
    simp only [Count.method, List.length_cons, Count.mk.injEq]
    omega

/-- Folding the head back in equals folding from the decimal zero. -/
theorem foldl_add_cons_zero (x : Dec) (xs : List Dec) :
    xs.foldl Dec.add x = (x :: xs).foldl Dec.add ⟨0, 0⟩ := by
  simp [List.foldl_cons, Dec.zero_add_dec]

/-- Claim C8: for every fixed multiset of contributing values, fed in any
order through `new` and `update`, the finalized outputs of `Count`, `Sum`
and `Mean` coincide — their final states are identical, hence so are their
serialized outputs (and `Mean`'s final quotient). -/
theorem c8_count_sum_mean_permutation_invariant (l₁ l₂ : List Dec)
    (h : List.Perm l₁ l₂) :
    runCount l₁ = runCount l₂ ∧ runSum l₁ = runSum l₂ ∧ runMean l₁ = runMean l₂ ∧
    (runCount l₁).map Count.method.to_output = (runCount l₂).map Count.method.to_output ∧
    (runSum l₁).map Sum.method.to_output = (runSum l₂).map Sum.method.to_output ∧
    (runMean l₁).map Mean.compute = (runMean l₂).map Mean.compute := by
  have hrc : ∀ b (a₁ a₂ : Dec), Dec.add (Dec.add b a₁) a₂ = Dec.add (Dec.add b a₂) a₁ := by
    intro b a₁ a₂
    rw [Dec.add_assoc_dec, Dec.add_assoc_dec, Dec.add_comm_dec a₁ a₂]
  have hmain : runCount l₁ = runCount l₂ ∧ runSum l₁ = runSum l₂ ∧ runMean l₁ = runMean l₂ := by
    cases l₁ with
    | nil =>
      have h2 : l₂ = [] := h.symm.eq_nil
      subst h2
      exact ⟨rfl, rfl, rfl⟩
    | cons x₁ xs₁ =>
      cases l₂ with
      | nil => exact absurd h.eq_nil (by simp)
      | cons x₂ xs₂ =>
        have hlen : xs₁.length = xs₂.length := by simpa using h.length_eq
        have hfold : xs₁.foldl Dec.add x₁ = xs₂.foldl Dec.add x₂ := by
          rw [foldl_add_cons_zero x₁ xs₁, foldl_add_cons_zero x₂ xs₂]
          exact foldl_perm_eq Dec.add hrc h ⟨0, 0⟩
        refine ⟨?_, ?_, ?_⟩
        · simp only [runCount, runAcc, count_foldl_aux, hlen]
          rfl
        · simp only [runSum, runAcc]
          rw [show Sum.method.new (ptOfDec x₁) = ⟨x₁⟩ from rfl,
            show Sum.method.new (ptOfDec x₂) = ⟨x₂⟩ from rfl,
            sum_foldl_aux, sum_foldl_aux]
          simp [hfold]
        · simp only [runMean, runAcc]
          rw [show Mean.method.new (ptOfDec x₁) = ⟨1, x₁⟩ from rfl,
            show Mean.method.new (ptOfDec x₂) = ⟨1, x₂⟩ from rfl,
            mean_foldl_aux, mean_foldl_aux]
          simp [hfold, hlen]
  exact ⟨hmain.1, hmain.2.1, hmain.2.2,
    by rw [hmain.1], by rw [hmain.2.1], by rw [hmain.2.2]⟩

/-- Witness for claim C8: the permuted lists `[0.1, 2]` and `[2, 0.1]`. -/
theorem c8_count_sum_mean_permutation_invariant_witness :
    runCount [⟨1, 1⟩, ⟨2, 0⟩] = runCount [⟨2, 0⟩, ⟨1, 1⟩] ∧
    runSum [⟨1, 1⟩, ⟨2, 0⟩] = runSum [⟨2, 0⟩, ⟨1, 1⟩] ∧
    runMean [⟨1, 1⟩, ⟨2, 0⟩] = runMean [⟨2, 0⟩, ⟨1, 1⟩] ∧
    (runCount [⟨1, 1⟩, ⟨2, 0⟩]).map Count.method.to_output =
      (runCount [⟨2, 0⟩, ⟨1, 1⟩]).map Count.method.to_output ∧
    (runSum [⟨1, 1⟩, ⟨2, 0⟩]).map Sum.method.to_output =
      (runSum [⟨2, 0⟩, ⟨1, 1⟩]).map Sum.method.to_output ∧
    (runMean [⟨1, 1⟩, ⟨2, 0⟩]).map Mean.compute =
      (runMean [⟨2, 0⟩, ⟨1, 1⟩]).map Mean.compute :=
  c8_count_sum_mean_permutation_invariant [⟨1, 1⟩, ⟨2, 0⟩] [⟨2, 0⟩, ⟨1, 1⟩]
    (List.Perm.swap (⟨2, 0⟩ : Dec) (⟨1, 1⟩ : Dec) [])

/-- The decimal fold represents the rational sum. -/
theorem dec_foldl_toRat :
    ∀ (l : List Dec) (acc : Dec),
      (l.foldl Dec.add acc).toRat = acc.toRat + (l.map Dec.toRat).sum := by
  intro l
  induction l with
  | nil => intro acc; simp
  | cons x rest ih =>
    intro acc
    rw [List.foldl_cons, ih, Dec.toRat_add, List.map_cons, List.sum_cons]
    ring

/-- Claim C9: `Sum` accumulates by exact decimal addition — the final total
represents exactly the rational sum of the inputs, with no binary
floating-point truncation; in particular `Sum::new(0.1).update(0.2)`
serializes to exactly `"0.3"`. -/
theorem c9_sum_exact_decimal :
    (∀ (x : Dec) (xs : List Dec),
      (runAcc Sum.method (ptOfDec x) (xs.map ptOfDec)).cur_total.toRat =
        ((x :: xs).map Dec.toRat).sum) ∧
    (runSum [⟨1, 1⟩, ⟨2, 1⟩]).map Sum.method.to_output = some "0.3" := by
  constructor
  · intro x xs
    rw [runAcc, show Sum.method.new (ptOfDec x) = ⟨x⟩ from rfl, sum_foldl_aux,
      show (Sum.mk x).cur_total = x from rfl, foldl_add_cons_zero, dec_foldl_toRat]
    simp [Dec.toRat]
  · decide

/-- Bumping one key of the histogram increments exactly that key's count. -/
theorem hmGet_hmBump :
    ∀ (m : List (String × Nat)) (k₀ k : String),
      hmGet (hmBump m k₀) k = if k = k₀ then hmGet m k + 1 else hmGet m k := by
  intro m
  induction m with
  | nil =>
    intro k₀ k
    by_cases h : k = k₀
    · subst h; simp [hmBump, hmGet]
    · simp [hmBump, hmGet, h, Ne.symm h]
  | cons p rest ih =>
    rcases p with ⟨k', w⟩
    intro k₀ k
    simp only [hmBump]
    by_cases h1 : k' = k₀
    · subst h1
      by_cases h2 : k' = k
      · subst h2; simp [hmGet]
      · have h3 : ¬ k = k' := fun hh => h2 hh.symm
        simp [hmGet, h2, h3]
    · simp only [if_neg h1]
      by_cases h2 : k' = k
      · subst h2
        have h3 : ¬ k' = k₀ := h1
        simp [hmGet, h3]
      · simp [hmGet, h2, ih]

/-- Feeding one more value is one `update` step on the accumulated state. -/
theorem runMode_snoc (v x : String) (xs : List String) :
    runMode v (xs ++ [x]) = Mode.method.update (runMode v xs) (ptOfStr x) := by
  simp [runMode, runAcc, List.map_append, List.foldl_append]

/-- Invariant of a `Mode` run: the histogram holds the exact occurrence
counts, `max_count` bounds every occurrence count, and `max_val` is the
value that first reached `max_count`. -/
theorem mode_run_invariant (v : String) (vs : List String) :
    (∀ k, hmGet (runMode v vs).values k = (v :: vs).count k) ∧
    (∀ y, (v :: vs).count y ≤ (runMode v vs).max_count) ∧
    FirstReach (v :: vs) (runMode v vs).max_val (runMode v vs).max_count := by
  induction vs using List.reverseRecOn with
  | nil =>
    have hstate : runMode v [] = ⟨[(v, 1)], 1, v⟩ := rfl
    refine ⟨?_, ?_, 0, by simp, ?_, ?_, ?_⟩
    · intro k
      rw [hstate]
      by_cases h : v = k
      · subst h; simp [hmGet]
      · simp [hmGet, h, List.count_cons, fun hh : k = v => h hh.symm]
    · intro y
      rw [hstate]
      by_cases h : y = v
      · subst h; simp
      · simp [List.count_cons, h, fun hh : v = y => h hh.symm]
    · rw [hstate]
      rfl
    · rw [hstate]; simp
    · intro j hj hji
      exact absurd hji (Nat.not_lt_zero j)
  | append_singleton xs x ih =>
    obtain ⟨hhist, hbound, i, hlt, hget, htake, hmin⟩ := ih
    have hx : hmGet (runMode v xs).values x = (v :: xs).count x := hhist x
    have happ : v :: (xs ++ [x]) = (v :: xs) ++ [x] := rfl
    have hcnt : ∀ k, ((v :: xs) ++ [x]).count k =
        (v :: xs).count k + if k = x then 1 else 0 := by
      intro k
      rw [List.count_append]
      by_cases h : k = x
      · subst h; simp
      · simp [List.count_singleton, h, fun hh : x = k => h hh.symm]
    by_cases hcase : (runMode v xs).max_count < (v :: xs).count x + 1
    · -- the candidate's new count strictly exceeds the maximum: replace
      have hmax : (v :: xs).count x = (runMode v xs).max_count :=
        Nat.le_antisymm (hbound x) (Nat.lt_succ_iff.mp hcase)
      have hstate : runMode v (xs ++ [x]) =
          ⟨hmBump (runMode v xs).values x, (v :: xs).count x + 1, x⟩ := by
        rw [runMode_snoc]
        simp [Mode.method, Mode.entryOf, ptOfStr, hx, hcase]
      refine ⟨?_, ?_, ?_⟩
      · intro k
        rw [happ, hstate, hmGet_hmBump, hhist k, hcnt k]
        by_cases h : k = x <;> simp [h]
      · intro y
        rw [happ, hstate, hcnt y]
        by_cases h : y = x
        · simp [h]
        · simp only [h, if_false, Nat.add_zero]
          exact Nat.le_succ_of_le (hmax ▸ hbound y)
      · rw [happ, hstate]
        refine ⟨(v :: xs).length, by simp, ?_, ?_, ?_⟩
        · simp [List.get_eq_getElem, List.getElem_concat_length]
        · rw [List.take_of_length_le (by simp), List.count_append]
          simp
        · intro j hj hji
          have hjl : j < (v :: xs).length := hji
          have hjtake : j + 1 ≤ (v :: xs).length := hjl
          rw [List.take_append_of_le_length hjtake]
          have hgj : ((v :: xs) ++ [x]).get ⟨j, hj⟩ = (v :: xs).get ⟨j, hjl⟩ :=
            List.get_append j hjl
          rw [hgj]
          have h1 : ((v :: xs).take (j + 1)).count ((v :: xs).get ⟨j, hjl⟩) ≤
              (v :: xs).count ((v :: xs).get ⟨j, hjl⟩) :=
            (List.take_sublist (j + 1) (v :: xs)).count_le _
          have h2 := hbound ((v :: xs).get ⟨j, hjl⟩)
          show ((v :: xs).take (j + 1)).count ((v :: xs).get ⟨j, hjl⟩) <
            (v :: xs).count x + 1
          omega
    · -- tie or below: the (max_count, max_val) pair is kept
      have hle : (v :: xs).count x + 1 ≤ (runMode v xs).max_count := Nat.not_lt.mp hcase
      have hstate : runMode v (xs ++ [x]) =
          ⟨hmBump (runMode v xs).values x, (runMode v xs).max_count,
            (runMode v xs).max_val⟩ := by
        rw [runMode_snoc]
        simp [Mode.method, Mode.entryOf, ptOfStr, hx, hcase]
      refine ⟨?_, ?_, ?_⟩
      · intro k
        rw [happ, hstate, hmGet_hmBump, hhist k, hcnt k]
        by_cases h : k = x <;> simp [h]
      · intro y
        rw [happ, hstate, hcnt y]
        by_cases h : y = x
        · subst h
          rw [if_pos rfl]
          exact hle
        · simp only [h, if_false, Nat.add_zero]
          exact hbound y
      · rw [happ, hstate]
        have hlt2 : i < ((v :: xs) ++ [x]).length := by
          rw [List.length_append]
          omega
        refine ⟨i, hlt2, ?_, ?_, ?_⟩
        · rw [List.get_append i hlt]
          exact hget
        · rw [List.take_append_of_le_length hlt]
          exact htake
        · intro j hj hji
          have hjl : j < (v :: xs).length := lt_trans hji hlt
          have hjtake : j + 1 ≤ (v :: xs).length := hjl
          rw [List.take_append_of_le_length hjtake, List.get_append j hjl]
          exact hmin j hjl hji

/-- Claim C4: for every non-empty sequence of text values fed through
`Mode::new` and `Mode::update`, the finalized output is the value that
first reached the maximal occurrence count (`max_count` is an upper bound
attained by `max_val`, and `max_val` arrived at the first position whose
running count reaches `max_count`); the stored `(max_count, max_val)` pair
is replaced only when a candidate's count is strictly greater than
`max_count`, so on ties the earlier value is kept — e.g. seed `"a"` with
updates `"b"`, `"a"`, `"b"` outputs `"a"`, never the most-recently-tied
value. -/
theorem c4_mode_first_to_reach_max :
    (∀ (v : String) (vs : List String),
      Mode.method.to_output (runMode v vs) = (runMode v vs).max_val ∧
      (∀ y, (v :: vs).count y ≤ (runMode v vs).max_count) ∧
      (v :: vs).count (runMode v vs).max_val = (runMode v vs).max_count ∧
      FirstReach (v :: vs) (runMode v vs).max_val (runMode v vs).max_count) ∧
    (∀ (s : Mode) (pv : ParsingType),
      hmGet s.values (Mode.entryOf pv) + 1 ≤ s.max_count →
        (Mode.method.update s pv).max_count = s.max_count ∧
        (Mode.method.update s pv).max_val = s.max_val) ∧
    Mode.method.to_output (runMode "a" ["b", "a", "b"]) = "a" := by
  refine ⟨?_, ?_, by decide⟩
  · intro v vs
    obtain ⟨hhist, hbound, hfirst⟩ := mode_run_invariant v vs
    refine ⟨rfl, hbound, ?_, hfirst⟩
    obtain ⟨i, hlt, hget, htake, _⟩ := hfirst
    have h1 : ((v :: vs).take (i + 1)).count (runMode v vs).max_val ≤
        (v :: vs).count (runMode v vs).max_val :=
      (List.take_sublist (i + 1) (v :: vs)).count_le _
    have h2 := hbound (runMode v vs).max_val
    omega
  · intro s pv hle
    have hni : ¬ s.max_count < hmGet s.values (Mode.entryOf pv) + 1 := Nat.not_lt.mpr hle
    constructor <;> simp [Mode.method, hni]

/-- Witness for claim C4: the tie-keep branch applied at the state reached
after `a, b, a` (counts `a ↦ 2`, `b ↦ 1`, maximum 2 held by `a`) updated
with the tying value `b`, plus the concrete four-record example. -/
theorem c4_mode_first_to_reach_max_witness :
    Mode.method.to_output (runMode "a" ["b", "a", "b"]) = "a" ∧
    (Mode.method.update ⟨[("a", 2), ("b", 1)], 2, "a"⟩ (ptOfStr "b")).max_count = 2 ∧
    (Mode.method.update ⟨[("a", 2), ("b", 1)], 2, "a"⟩ (ptOfStr "b")).max_val = "a" :=
  ⟨c4_mode_first_to_reach_max.2.2,
    (c4_mode_first_to_reach_max.2.1 ⟨[("a", 2), ("b", 1)], 2, "a"⟩ (ptOfStr "b")
      (by decide)).1,
    (c4_mode_first_to_reach_max.2.1 ⟨[("a", 2), ("b", 1)], 2, "a"⟩ (ptOfStr "b")
      (by decide)).2⟩

end Clipivot
